import Mathlib

/-!
Shallow embedding of the typing-practice program (`typing.py`).

Modelling conventions:
* Wall-clock instants (`time.time()`) are integers (seconds) supplied with
  each keystroke, so a drill run is a function of its input keystroke
  list; all interval arithmetic and threshold comparisons of the source
  are order-ring operations carried out verbatim over `ℤ`.
* Python `float('inf')` for the first keystroke interval is modelled with
  `Option`: `last_key_time = none` means no prior keystroke, and the
  interval check `elapsed > MAX_KEY_INTERVAL` is true for the infinite
  interval.
* The Python `dict` `char_accuracies` is an insertion-ordered association
  list, as CPython dicts are.
* Division raising `ZeroDivisionError` is modelled with `Option`:
  `none` means the exception is raised.
* Terminal output is accumulated as a list of the written strings;
  `sys.exit(0)` and blocking on exhausted input are distinguished results.
-/

namespace Typing

/-- `MAX_KEY_INTERVAL = 10` (seconds): intervals longer than this are not
considered during speed calculations. -/
def MAX_KEY_INTERVAL : ℤ := 10

/-- Control Sequence Introducer. -/
def CSI : String := "\x1b["

def RED : Nat := 1
def GREEN : Nat := 2
def CYAN : Nat := 6

/-- `fg(colour)` escape sequence. -/
def fg (colour : Nat) : String := CSI ++ "3" ++ toString colour ++ "m"

def reset : String := CSI ++ "0m"
def bold : String := CSI ++ "1m"
def bell : String := "\x07"

/-- Class `WPM`: characters typed and time spent, for calculating wpm. -/
structure WPM where
  chars : ℕ
  seconds : ℤ
deriving DecidableEq, Repr

/-- `WPM()` default construction. -/
def WPM.init : WPM := ⟨0, 0⟩

/-- `WPM.add_char(seconds)`: one more character, `seconds` more time. -/
def WPM.add_char (w : WPM) (seconds : ℤ) : WPM :=
  { chars := w.chars + 1, seconds := w.seconds + seconds }

/-- `WPM.get_wpm`: `chars / seconds * 12`; `none` models the
`ZeroDivisionError` raised when `seconds == 0`. -/
def WPM.get_wpm (w : WPM) : Option ℚ :=
  if w.seconds = 0 then none else some ((w.chars : ℚ) / (w.seconds : ℚ) * 12)

/-- `WPM.__iadd__`: field-wise sum. -/
def WPM.iadd (w other : WPM) : WPM :=
  { chars := w.chars + other.chars, seconds := w.seconds + other.seconds }

/-- Class `Accuracy`: characters typed correctly and incorrectly. -/
structure Accuracy where
  correct : ℕ
  incorrect : ℕ
deriving DecidableEq, Repr

/-- `Accuracy()` default construction. -/
def Accuracy.init : Accuracy := ⟨0, 0⟩

/-- `Accuracy.type_char(correct)`. -/
def Accuracy.type_char (a : Accuracy) (correct : Bool) : Accuracy :=
  if correct then { a with correct := a.correct + 1 }
  else { a with incorrect := a.incorrect + 1 }

/-- `Accuracy.get_acc`: `correct / (correct + incorrect)`; `none` models the
`ZeroDivisionError` on a zero denominator. -/
def Accuracy.get_acc (a : Accuracy) : Option ℚ :=
  if a.correct + a.incorrect = 0 then none
  else some ((a.correct : ℚ) / ((a.correct : ℚ) + (a.incorrect : ℚ)))

/-- `Accuracy.__iadd__`: field-wise sum. -/
def Accuracy.iadd (a other : Accuracy) : Accuracy :=
  { correct := a.correct + other.correct, incorrect := a.incorrect + other.incorrect }

/-- The `char_accuracies` dict: an insertion-ordered association list. -/
abbrev CharAccMap := List (Char × Accuracy)

/-- Dict lookup with the zero `Accuracy` as default for absent keys
(observation function; absent keys never reach `get_acc` in the program). -/
def accAt : CharAccMap → Char → Accuracy
  | [], _ => Accuracy.init
  | p :: r, c => if p.1 = c then p.2 else accAt r c

/-- Sum of the values of all entries whose key is `c` (coincides with
`accAt` on maps without duplicate keys). -/
def sumAt : CharAccMap → Char → Accuracy
  | [], _ => Accuracy.init
  | p :: r, c => if p.1 = c then p.2.iadd (sumAt r c) else sumAt r c

/-- A dict never has duplicate keys. -/
def nodupKeys (m : CharAccMap) : Prop := (m.map Prod.fst).Nodup

instance (m : CharAccMap) : Decidable (nodupKeys m) := by
  unfold nodupKeys; infer_instance

/-- `SessionStats.init_char_stats(char)`: insert a zero `Accuracy` for
`char` if absent (CPython dicts append new keys at the end). -/
def init_char_stats (m : CharAccMap) (char : Char) : CharAccMap :=
  if m.any (fun p => p.1 = char) then m else m ++ [(char, Accuracy.init)]

/-- `self.char_accuracies[char].type_char(correct)`: in-place update of the
entry for `char`. -/
def charAcc_type_char (m : CharAccMap) (char : Char) (correct : Bool) : CharAccMap :=
  (init_char_stats m char).map (fun p => if p.1 = char then (p.1, p.2.type_char correct) else p)

/-- `self.init_char_stats(char); self.char_accuracies[char] += acc`
(the body of the merge loop in `SessionStats.__iadd__`). -/
def charAcc_add (m : CharAccMap) (char : Char) (acc : Accuracy) : CharAccMap :=
  (init_char_stats m char).map (fun p => if p.1 = char then (p.1, p.2.iadd acc) else p)

/-- The `for char, acc in other.char_accuracies.items()` merge loop. -/
def mergeCharAcc (m other : CharAccMap) : CharAccMap :=
  other.foldl (fun m p => charAcc_add m p.1 p.2) m

/-- Class `SessionStats`: stats about one or more attempts at typing a line.
Fields in the order of `__init__`. -/
structure SessionStats where
  correct_line_wpm : WPM
  total_line_wpm : WPM
  attempt_wpm : WPM
  total_acc : Accuracy
  char_accuracies : CharAccMap
  last_key_time : Option ℤ
deriving DecidableEq, Repr

/-- `SessionStats()` default construction. -/
def SessionStats.init : SessionStats :=
  { correct_line_wpm := WPM.init
    total_line_wpm := WPM.init
    attempt_wpm := WPM.init
    total_acc := Accuracy.init
    char_accuracies := []
    last_key_time := none }

/-- `SessionStats.type_char(correct, char)`, with `now` (the value of
`time.time()`) passed in explicitly.  An interval longer than
`MAX_KEY_INTERVAL` — including the infinite interval of the first
keystroke of an attempt (`last_key_time is None`) — returns before the
`add_char` calls, so it updates neither wpm tally. -/
def SessionStats.type_char (s : SessionStats) (correct : Bool) (char : Char) (now : ℤ) :
    SessionStats :=
  let s1 := { s with
    total_acc := s.total_acc.type_char correct
    char_accuracies := charAcc_type_char s.char_accuracies char correct
    last_key_time := some now }
  match s.last_key_time with
  | none => s1
  | some t =>
    if MAX_KEY_INTERVAL < now - t then s1
    else { s1 with
      total_line_wpm := s1.total_line_wpm.add_char (now - t)
      attempt_wpm := s1.attempt_wpm.add_char (now - t) }

/-- `SessionStats.end_attempt(success)`. -/
def SessionStats.end_attempt (s : SessionStats) (success : Bool) : SessionStats :=
  let s1 := if success then
      { s with correct_line_wpm := s.correct_line_wpm.iadd s.attempt_wpm }
    else s
  { s1 with attempt_wpm := WPM.init, last_key_time := none }

/-- `SessionStats.total_wpm`. -/
def SessionStats.total_wpm (s : SessionStats) : Option ℚ := s.total_line_wpm.get_wpm

/-- `SessionStats.correct_wpm`. -/
def SessionStats.correct_wpm (s : SessionStats) : Option ℚ := s.correct_line_wpm.get_wpm

/-- `SessionStats.accuracy`. -/
def SessionStats.accuracy (s : SessionStats) : Option ℚ := s.total_acc.get_acc

/-- `SessionStats._dump_char_acc`: the per-character accuracies it prints;
`none` if any `get_acc` raises. -/
def dumpCharAcc : CharAccMap → Option (List (Char × ℚ))
  | [] => some []
  | (c, a) :: r =>
    match a.get_acc, dumpCharAcc r with
    | some q, some l => some ((c, q) :: l)
    | _, _ => none

/-- `SessionStats.__iadd__`: sums the two wpm tallies and the accuracy
counters field-wise and folds `other`'s per-character map in; `attempt_wpm`
and `last_key_time` are left as `self`'s. -/
def SessionStats.iadd (s other : SessionStats) : SessionStats :=
  { s with
    correct_line_wpm := s.correct_line_wpm.iadd other.correct_line_wpm
    total_line_wpm := s.total_line_wpm.iadd other.total_line_wpm
    total_acc := s.total_acc.iadd other.total_acc
    char_accuracies := mergeCharAcc s.char_accuracies other.char_accuracies }

/-- One keystroke of user input: the character read by `get_char()` and the
wall-clock instant `time.time()` would return for it. -/
structure Keystroke where
  char : Char
  time : ℤ
deriving DecidableEq, Repr

/-- Result of `practice_line`: the normal return value plus the unread rest
of the input, `sys.exit(0)` on Ctrl-C, or blocking forever because the
input is exhausted.  `out` is everything written to stdout so far. -/
inductive LineResult where
  | finished (success : Bool) (stats : SessionStats) (rest : List Keystroke) (out : List String)
  | exited (out : List String)
  | blocked (out : List String)
deriving DecidableEq, Repr

/-- The `while str_progress < len(string)` loop of `practice_line`. -/
def practice_line_loop (string : List Char) :
    ℕ → ℤ → SessionStats → List String → List Keystroke → LineResult
  | str_progress, failures_remaining, stats, out, input =>
    if h : str_progress < string.length then
      match input with
      | [] => .blocked out
      | k :: rest =>
        let correct_char := string.get ⟨str_progress, h⟩
        if k.char = correct_char then
          practice_line_loop string (str_progress + 1) failures_remaining
            (stats.type_char true correct_char k.time)
            (out ++ [String.singleton correct_char]) rest
        else if k.char = '\x03' then
          .exited out
        else if 0 < str_progress then
          let display_char : String := if k.char = '\n' then "" else String.singleton k.char
          let out2 := out ++ [bell ++ fg RED ++ bold ++ display_char ++ reset ++ "\n"]
          let stats2 := (stats.type_char false correct_char k.time).end_attempt false
          if failures_remaining - 1 = 0 then
            .finished false stats2 rest out2
          else
            practice_line_loop string 0 (failures_remaining - 1) stats2 out2 rest
        else
          practice_line_loop string str_progress failures_remaining stats
            (out ++ [bell]) rest
    else
      .finished true (stats.end_attempt true) input (out ++ ["\n"])

/-- `practice_line(string, max_fails)`. -/
def practice_line (string : List Char) (max_fails : ℤ) (input : List Keystroke) : LineResult :=
  practice_line_loop string 0 max_fails SessionStats.init
    [fg CYAN ++ bold ++ String.mk string ++ reset ++ "\n"] input

/-- Result of `practice_passage`: the final report (`none` components never
occur in a `finished` result; a raised `ZeroDivisionError` is its own
constructor), propagated `sys.exit(0)`, blocking, or exhausted fuel (shown
unreachable for the fuel `practice_passage` supplies). -/
inductive PassageResult where
  | finished (stats : SessionStats) (total_wpm correct_wpm accuracy : ℚ)
      (char_report : List (Char × ℚ))
  | zeroDivisionError (stats : SessionStats)
  | exited
  | blocked
  | outOfFuel
deriving DecidableEq, Repr

/-- The final report block of `practice_passage` (`total_wpm`, then
`correct_wpm`, then `accuracy`, then `_dump_char_acc`; the first zero
denominator raises). -/
def passage_report (stats : SessionStats) : PassageResult :=
  match stats.total_wpm, stats.correct_wpm, stats.accuracy,
      dumpCharAcc stats.char_accuracies with
  | some tw, some cw, some acc, some cr => .finished stats tw cw acc cr
  | _, _, _, _ => .zeroDivisionError stats

/-- The `while current_progress < len(lines)` loop of `practice_passage`,
with fuel to make the (source-level unbounded) loop a total function;
`practice_passage` passes fuel proven sufficient. -/
def practice_passage_loop (lines : List (List Char)) (fail_lines : ℤ) :
    ℕ → ℕ → SessionStats → List Keystroke → PassageResult
  | 0, _, _, _ => .outOfFuel
  | fuel + 1, current_progress, stats, input =>
    if hp : current_progress < lines.length then
      match practice_line (lines.get ⟨current_progress, hp⟩) fail_lines input with
      | .exited _ => .exited
      | .blocked _ => .blocked
      | .finished success line_stats rest _ =>
        let stats2 := stats.iadd line_stats
        if success then
          practice_passage_loop lines fail_lines fuel (current_progress + 1) stats2 rest
        else if 0 < current_progress then
          practice_passage_loop lines fail_lines fuel (current_progress - 1) stats2 rest
        else
          practice_passage_loop lines fail_lines fuel current_progress stats2 rest
    else
      passage_report stats

/-- `practice_passage(lines, fail_lines)`. -/
def practice_passage (lines : List (List Char)) (fail_lines : ℤ) (input : List Keystroke) :
    PassageResult :=
  practice_passage_loop lines fail_lines (2 * input.length + lines.length + 1)
    0 SessionStats.init input

/-! ## Event traces and the accumulator invariant (data for C3) -/

/-- One statistics-accumulator operation, as a line drill performs them:
a recorded keystroke (`type_char`) or the end of an attempt
(`end_attempt`). -/
inductive StatEvent where
  | key (correct : Bool) (char : Char) (now : ℤ)
  | ended (success : Bool)
deriving DecidableEq, Repr

/-- Run a sequence of accumulator operations. -/
def applyEvents : SessionStats → List StatEvent → SessionStats
  | s, [] => s
  | s, .key c ch t :: r => applyEvents (s.type_char c ch t) r
  | s, .ended b :: r => applyEvents (s.end_attempt b) r

/-- The wall-clock instants of the keystroke events, in order. -/
def eventTimes : List StatEvent → List ℤ
  | [] => []
  | .key _ _ t :: r => t :: eventTimes r
  | .ended _ :: r => eventTimes r

/-- The inductive invariant: the still-open attempt tally together with the
correct tally never exceeds the all-attempts tally, and the open attempt's
elapsed time is nonnegative. -/
def StatsInv (s : SessionStats) : Prop :=
  s.correct_line_wpm.chars + s.attempt_wpm.chars ≤ s.total_line_wpm.chars ∧
  s.correct_line_wpm.seconds + s.attempt_wpm.seconds ≤ s.total_line_wpm.seconds ∧
  0 ≤ s.attempt_wpm.seconds

instance (s : SessionStats) : Decidable (StatsInv s) := by
  unfold StatsInv; infer_instance

/-- The two lines of the concrete C5 scenario: a passage of `"ab"` then
`"c"`. -/
def sample_lines : List (List Char) := [['a', 'b'], ['c']]

/-- Keystrokes for the C5 scenario: `a`, then a wrong `x` (line fails with
`fail_lines = 1`), then `a`, `b` (line succeeds), then `c`. -/
def sample_input : List Keystroke :=
  [⟨'a', 0⟩, ⟨'x', 1⟩, ⟨'a', 2⟩, ⟨'b', 3⟩, ⟨'c', 4⟩]

/-! ## Branch lemmas for the `practice_line` loop -/

/-- Reading a matching character: echo it, record it, advance the cursor. -/
theorem practice_line_loop_match (string : List Char) (p : ℕ) (f : ℤ)
    (stats : SessionStats) (out : List String) (k : Keystroke) (rest : List Keystroke)
    (h : p < string.length) (hc : k.char = string.get ⟨p, h⟩) :
    practice_line_loop string p f stats out (k :: rest) =
      practice_line_loop string (p + 1) f
        (stats.type_char true (string.get ⟨p, h⟩) k.time)
        (out ++ [String.singleton (string.get ⟨p, h⟩)]) rest := by
  rw [practice_line_loop]
  simp only [List.get_eq_getElem] at hc ⊢
  simp [h, hc]

/-- Reading the interrupt character (when it is not the expected one):
`sys.exit(0)`. -/
theorem practice_line_loop_interrupt (string : List Char) (p : ℕ) (f : ℤ)
    (stats : SessionStats) (out : List String) (k : Keystroke) (rest : List Keystroke)
    (h : p < string.length) (hc : k.char ≠ string.get ⟨p, h⟩) (hx : k.char = '\x03') :
    practice_line_loop string p f stats out (k :: rest) = .exited out := by
  rw [practice_line_loop]
  simp only [List.get_eq_getElem] at hc ⊢
  rw [hx] at hc
  simp [h, hc, hx]

/-- A mismatch at `cursor > 0`: record the failed keystroke, end the
attempt, decrement the failure budget; fail the line if the budget hits
zero, otherwise restart at cursor 0. -/
theorem practice_line_loop_mismatch (string : List Char) (p : ℕ) (f : ℤ)
    (stats : SessionStats) (out : List String) (k : Keystroke) (rest : List Keystroke)
    (h : p < string.length) (hc : k.char ≠ string.get ⟨p, h⟩) (hx : k.char ≠ '\x03')
    (hp : 0 < p) :
    practice_line_loop string p f stats out (k :: rest) =
      (let out2 := out ++ [bell ++ fg RED ++ bold ++
        (if k.char = '\n' then "" else String.singleton k.char) ++ reset ++ "\n"]
      let stats2 := (stats.type_char false (string.get ⟨p, h⟩) k.time).end_attempt false
      if f - 1 = 0 then .finished false stats2 rest out2
      else practice_line_loop string 0 (f - 1) stats2 out2 rest) := by
  rw [practice_line_loop]
  simp only [List.get_eq_getElem] at hc ⊢
  simp [h, hc, hx, hp]

/-- A mismatch at `cursor == 0`: just ring the bell and keep waiting. -/
theorem practice_line_loop_first_miss (string : List Char) (f : ℤ)
    (stats : SessionStats) (out : List String) (k : Keystroke) (rest : List Keystroke)
    (h : 0 < string.length) (hc : k.char ≠ string.get ⟨0, h⟩) (hx : k.char ≠ '\x03') :
    practice_line_loop string 0 f stats out (k :: rest) =
      practice_line_loop string 0 f stats (out ++ [bell]) rest := by
  rw [practice_line_loop]
  simp only [List.get_eq_getElem] at hc ⊢
  simp [h, hc, hx]

/-- Cursor at the end of the line: the attempt succeeded. -/
theorem practice_line_loop_done (string : List Char) (p : ℕ) (f : ℤ)
    (stats : SessionStats) (out : List String) (input : List Keystroke)
    (h : ¬ p < string.length) :
    practice_line_loop string p f stats out input =
      .finished true (stats.end_attempt true) input (out ++ ["\n"]) := by
  rw [practice_line_loop]
  simp [h]

/-- Input exhausted below the end of the line: the program blocks. -/
theorem practice_line_loop_blocked (string : List Char) (p : ℕ) (f : ℤ)
    (stats : SessionStats) (out : List String) (h : p < string.length) :
    practice_line_loop string p f stats out [] = .blocked out := by
  rw [practice_line_loop]
  simp [h]

/-- A non-positive failure budget can never make the loop return failure:
the decrement in the mismatch branch keeps it negative, and the
termination test is an equality test against zero. -/
theorem practice_line_loop_no_fail (string : List Char) :
    ∀ (input : List Keystroke) (p : ℕ) (f : ℤ) (stats : SessionStats) (out : List String),
      f ≤ 0 → ∀ st rest o,
        practice_line_loop string p f stats out input ≠ .finished false st rest o := by
  intro input
  induction input with
  | nil =>
    intro p f stats out hf st rest o
    by_cases h : p < string.length
    · rw [practice_line_loop_blocked _ _ _ _ _ h]
      simp
    · rw [practice_line_loop_done _ _ _ _ _ _ h]
      simp
  | cons k ks ih =>
    intro p f stats out hf st rest o
    by_cases h : p < string.length
    · by_cases hc : k.char = string.get ⟨p, h⟩
      · rw [practice_line_loop_match _ _ _ _ _ _ _ h hc]
        exact ih _ _ _ _ hf _ _ _
      · by_cases hx : k.char = '\x03'
        · rw [practice_line_loop_interrupt _ _ _ _ _ _ _ h hc hx]
          simp
        · by_cases hp : 0 < p
          · rw [practice_line_loop_mismatch _ _ _ _ _ _ _ h hc hx hp]
            have hf1 : f - 1 ≠ 0 := by omega
            simp only [hf1, if_false]
            exact ih _ _ _ _ (by omega) _ _ _
          · have hp0 : p = 0 := by omega
            subst hp0
            rw [practice_line_loop_first_miss _ _ _ _ _ _ h hc hx]
            exact ih _ _ _ _ hf _ _ _
    · rw [practice_line_loop_done _ _ _ _ _ _ h]
      simp

/-! ## Claims -/

/-- C10: calling `practice_line` with an empty target line returns success
immediately with an all-zero statistics accumulator
(`SessionStats.init`), without reading any character from the input
source (the whole `input` is returned unread, and the only output is the
target-line header and the trailing newline). -/
theorem claim_C10 (f : ℤ) (input : List Keystroke) :
    practice_line [] f input =
      .finished true SessionStats.init input
        [fg CYAN ++ bold ++ String.mk [] ++ reset ++ "\n", "\n"] := by
  unfold practice_line
  rw [practice_line_loop_done _ _ _ _ _ _ (by simp)]
  have hinit : SessionStats.init.end_attempt true = SessionStats.init := by decide
  rw [hinit]
  rfl

/-- C9: with any `max_fails ≤ 0` — including `max_fails = 0`, not only
negative values — `practice_line` never returns failure:
`failures_remaining` starts non-positive, the first counted mismatch
decrements it below zero, and the termination test compares for equality
with zero, so it never fires; retries are unbounded. -/
theorem claim_C9 (string : List Char) (f : ℤ) (input : List Keystroke)
    (hf : f ≤ 0) (st : SessionStats) (rest : List Keystroke) (o : List String) :
    practice_line string f input ≠ .finished false st rest o := by
  unfold practice_line
  exact practice_line_loop_no_fail string input 0 f SessionStats.init _ hf st rest o

/-- Witness for C9 at a concrete run: `max_fails = 0`, a full-line mismatch
on the single-character line `"a"`. -/
theorem claim_C9_witness :
    (0 : ℤ) ≤ 0 ∧
      practice_line ['a'] 0 [⟨'b', 0⟩] ≠ .finished false SessionStats.init [] [] :=
  ⟨by decide, claim_C9 ['a'] 0 [⟨'b', 0⟩] (by decide) SessionStats.init [] []⟩

/-- C7: whenever `practice_line` reads the interrupt character `'\x03'`
from the character source and it is not the expected character (as for any
pre-sanitized target line), the loop ends in the process-exit result with
no further output appended, not in a `finished` value returned to the
caller; and `practice_passage` propagates that exit, terminating the whole
program rather than catching it. -/
theorem claim_C7 :
    (∀ (string : List Char) (p : ℕ) (f : ℤ) (stats : SessionStats)
        (out : List String) (t : ℤ) (rest : List Keystroke)
        (h : p < string.length), string.get ⟨p, h⟩ ≠ '\x03' →
        practice_line_loop string p f stats out (⟨'\x03', t⟩ :: rest) = .exited out) ∧
    (∀ (lines : List (List Char)) (fl : ℤ) (fuel cp : ℕ) (stats : SessionStats)
        (input : List Keystroke) (hp : cp < lines.length) (o : List String),
        practice_line (lines.get ⟨cp, hp⟩) fl input = .exited o →
        practice_passage_loop lines fl (fuel + 1) cp stats input = .exited) := by
  constructor
  · intro string p f stats out t rest h hne
    exact practice_line_loop_interrupt string p f stats out ⟨'\x03', t⟩ rest h hne.symm rfl
  · intro lines fl fuel cp stats input hp o hr
    rw [practice_passage_loop]
    simp only [List.get_eq_getElem] at hr
    simp [hp, hr]

/-- Witness for C7: Ctrl-C typed against the line `"a"` exits at once, and
a passage drill whose current line drill exits also exits. -/
theorem claim_C7_witness :
    (['a'].get ⟨0, by decide⟩ ≠ '\x03' ∧
      practice_line_loop ['a'] 0 10 SessionStats.init [] [⟨'\x03', 5⟩] = .exited []) ∧
    (practice_line ([['a']].get ⟨0, by decide⟩) 10 [⟨'\x03', 5⟩] =
        .exited [fg CYAN ++ bold ++ String.mk ['a'] ++ reset ++ "\n"] ∧
      practice_passage_loop [['a']] 10 1 0 SessionStats.init [⟨'\x03', 5⟩] = .exited) :=
  ⟨⟨by decide, claim_C7.1 ['a'] 0 10 SessionStats.init [] 5 [] (by decide) (by decide)⟩,
    ⟨by decide, claim_C7.2 [['a']] 10 0 0 SessionStats.init [⟨'\x03', 5⟩] (by decide)
      [fg CYAN ++ bold ++ String.mk ['a'] ++ reset ++ "\n"] (by decide)⟩⟩

/-- C6: a mismatched keystroke while `cursor == 0` (and which is not the
interrupt character) carries no penalty: the loop continues with the same
failure budget, the same statistics accumulator (so no character outcome
or timing is recorded and `last_key_time` is untouched), the cursor still
at 0, and only the bell appended to the output. -/
theorem claim_C6 (string : List Char) (f : ℤ) (stats : SessionStats)
    (out : List String) (k : Keystroke) (rest : List Keystroke)
    (h : 0 < string.length) (hc : k.char ≠ string.get ⟨0, h⟩) (hx : k.char ≠ '\x03') :
    practice_line_loop string 0 f stats out (k :: rest) =
      practice_line_loop string 0 f stats (out ++ [bell]) rest :=
  practice_line_loop_first_miss string f stats out k rest h hc hx

/-- Witness for C6: typing `'z'` as the first character of `"ab"`. -/
theorem claim_C6_witness :
    (⟨'z', 3⟩ : Keystroke).char ≠ ['a', 'b'].get ⟨0, by decide⟩ ∧
      practice_line_loop ['a', 'b'] 0 5 SessionStats.init [] [⟨'z', 3⟩] =
        practice_line_loop ['a', 'b'] 0 5 SessionStats.init ([] ++ [bell]) [] :=
  ⟨by decide, claim_C6 ['a', 'b'] 5 SessionStats.init [] ⟨'z', 3⟩ [] (by decide)
    (by decide) (by decide)⟩

/-- C4: a mismatch after the first character (`cursor > 0`, not the
interrupt character) records the failed keystroke and ends the attempt
(resetting `last_key_time` to `none`), then decrements
`failures_remaining`; if the decremented budget is exactly zero the call
returns failure immediately with the statistics accumulated so far,
otherwise the loop restarts at cursor 0 with the decremented budget; with
`max_fails = 1` the very first such mismatch fails the line, and a
negative `max_fails` disables the limit entirely. -/
theorem claim_C4 (string : List Char) (p : ℕ) (f : ℤ) (stats : SessionStats)
    (out : List String) (k : Keystroke) (rest : List Keystroke)
    (h : p < string.length) (hp : 0 < p)
    (hc : k.char ≠ string.get ⟨p, h⟩) (hx : k.char ≠ '\x03') :
    (f - 1 = 0 → practice_line_loop string p f stats out (k :: rest) =
      .finished false ((stats.type_char false (string.get ⟨p, h⟩) k.time).end_attempt false)
        rest (out ++ [bell ++ fg RED ++ bold ++
          (if k.char = '\n' then "" else String.singleton k.char) ++ reset ++ "\n"])) ∧
    (f - 1 ≠ 0 → practice_line_loop string p f stats out (k :: rest) =
      practice_line_loop string 0 (f - 1)
        ((stats.type_char false (string.get ⟨p, h⟩) k.time).end_attempt false)
        (out ++ [bell ++ fg RED ++ bold ++
          (if k.char = '\n' then "" else String.singleton k.char) ++ reset ++ "\n"]) rest) ∧
    ((stats.type_char false (string.get ⟨p, h⟩) k.time).end_attempt false).last_key_time
      = none ∧
    (f = 1 → practice_line_loop string p f stats out (k :: rest) =
      .finished false ((stats.type_char false (string.get ⟨p, h⟩) k.time).end_attempt false)
        rest (out ++ [bell ++ fg RED ++ bold ++
          (if k.char = '\n' then "" else String.singleton k.char) ++ reset ++ "\n"])) ∧
    (f < 0 → ∀ (input : List Keystroke) st r o,
      practice_line_loop string p f stats out input ≠ .finished false st r o) := by
  have hm := practice_line_loop_mismatch string p f stats out k rest h hc hx hp
  refine ⟨fun hf1 => ?_, fun hf1 => ?_, ?_, fun hf1 => ?_, fun hf1 => ?_⟩
  · rw [hm]
    simp only [hf1, if_true]
  · rw [hm]
    simp only [hf1, if_false]
  · simp [SessionStats.end_attempt]
  · rw [hm]
    subst hf1
    norm_num
  · intro input st r o
    exact practice_line_loop_no_fail string input p f stats out (le_of_lt hf1) st r o

/-- Witness for C4 at a concrete run: `max_fails = 1`, mismatch `'z'` at
cursor 1 of `"ab"` fails the line immediately with `last_key_time` reset. -/
theorem claim_C4_witness :
    ((0 : ℕ) < 1 ∧ (1 : ℤ) - 1 = 0) ∧
      practice_line_loop ['a', 'b'] 1 1 SessionStats.init [] [⟨'z', 7⟩] =
        .finished false
          ((SessionStats.init.type_char false (['a', 'b'].get ⟨1, by decide⟩) 7).end_attempt
            false) []
          ([] ++ [bell ++ fg RED ++ bold ++
            (if ('z' : Char) = '\n' then "" else String.singleton 'z') ++ reset ++ "\n"]) :=
  ⟨⟨by decide, by decide⟩,
    (claim_C4 ['a', 'b'] 1 1 SessionStats.init [] ⟨'z', 7⟩ [] (by decide) (by decide)
      (by decide) (by decide)).1 (by decide)⟩

/-- Counterexample to C1 as stated: after two correct keystrokes 15 s
apart, the claim predicts `char_count = 2` (incremented unconditionally,
only the interval excluded from `elapsed_time`); the code's early
`return` skips the `add_char` calls entirely, so `char_count = 0` — only
the accuracy totals were incremented. -/
theorem claim_C1_counterexample :
    ((SessionStats.init.type_char true 'a' 0).type_char true 'a' 15).total_line_wpm.chars
        = 0 ∧
      ((SessionStats.init.type_char true 'a' 0).type_char true 'a' 15).total_acc.correct
        = 2 := by
  decide

/-- C1 (amended): on every keystroke the accuracy totals are incremented
unconditionally and `last_key_time` is set, but `char_count` and
`elapsed_time` are updated *together*: when the interval is infinite (no
prior keystroke) or exceeds `MAX_KEY_INTERVAL` the keystroke contributes
to neither, and only a finite interval of at most 10 seconds increments
`char_count` by 1 and adds the interval to `elapsed_time` (in both the
total and current-attempt tallies). -/
theorem claim_C1 (s : SessionStats) (correct : Bool) (ch : Char) (now : ℤ) :
    (s.type_char correct ch now).total_acc = s.total_acc.type_char correct ∧
    (s.type_char correct ch now).last_key_time = some now ∧
    (s.last_key_time = none →
      (s.type_char correct ch now).total_line_wpm = s.total_line_wpm ∧
      (s.type_char correct ch now).attempt_wpm = s.attempt_wpm) ∧
    (∀ t, s.last_key_time = some t → MAX_KEY_INTERVAL < now - t →
      (s.type_char correct ch now).total_line_wpm = s.total_line_wpm ∧
      (s.type_char correct ch now).attempt_wpm = s.attempt_wpm) ∧
    (∀ t, s.last_key_time = some t → now - t ≤ MAX_KEY_INTERVAL →
      (s.type_char correct ch now).total_line_wpm = s.total_line_wpm.add_char (now - t) ∧
      (s.type_char correct ch now).attempt_wpm = s.attempt_wpm.add_char (now - t)) := by
  cases hl : s.last_key_time with
  | none => simp [SessionStats.type_char, hl]
  | some t =>
    simp only [SessionStats.type_char, hl]
    by_cases hgt : MAX_KEY_INTERVAL < now - t
    · rw [if_pos hgt]
      refine ⟨rfl, rfl, by simp, fun t2 ht2 h2 => ⟨rfl, rfl⟩, fun t2 ht2 hle => ?_⟩
      obtain rfl : t = t2 := Option.some.inj ht2
      exact absurd hgt (not_lt.mpr hle)
    · rw [if_neg hgt]
      refine ⟨rfl, rfl, by simp, fun t2 ht2 h2 => ?_, fun t2 ht2 hle => ?_⟩
      · obtain rfl : t = t2 := Option.some.inj ht2
        exact absurd h2 hgt
      · obtain rfl : t = t2 := Option.some.inj ht2
        exact ⟨rfl, rfl⟩

/-- Witness for C1 at the claim's own scenario: a 15-second interval
between two correct keystrokes leaves the all-attempts tally untouched. -/
theorem claim_C1_witness :
    (SessionStats.init.type_char true 'a' 0).last_key_time = some 0 ∧
    MAX_KEY_INTERVAL < (15 : ℤ) - 0 ∧
    ((SessionStats.init.type_char true 'a' 0).type_char true 'a' 15).total_line_wpm
      = (SessionStats.init.type_char true 'a' 0).total_line_wpm :=
  ⟨by decide, by decide,
    ((claim_C1 (SessionStats.init.type_char true 'a' 0) true 'a' 15).2.2.2.1 0
      (by decide) (by decide)).1⟩

/-- Counterexample to C2 as stated: a passage of zero lines does not
complete with an empty/undefined report — computing the report divides
`char_count` by the zero `elapsed_time` and the resulting
`ZeroDivisionError` propagates out of `practice_passage` unhandled. -/
theorem claim_C2_counterexample :
    practice_passage [] 10 [] = .zeroDivisionError SessionStats.init := by
  decide

/-- C2 (amended): running `practice_passage` on a sequence of zero lines
skips the drill loop immediately (reading no input), but the final report
then raises `ZeroDivisionError` out of `practice_passage`: whenever the
all-attempts tally has zero elapsed time, the very first metric
(`total_wpm`) divides by zero, so the zero denominator surfaces as an
unhandled exception rather than an explicit undefined state. -/
theorem claim_C2 (f : ℤ) (input : List Keystroke) :
    practice_passage [] f input = .zeroDivisionError SessionStats.init ∧
    ∀ stats : SessionStats, stats.total_line_wpm.seconds = 0 →
      passage_report stats = .zeroDivisionError stats := by
  constructor
  · unfold practice_passage
    simp only [List.length_nil, Nat.add_zero]
    rw [practice_passage_loop, dif_neg (by simp)]
    decide
  · intro stats h
    unfold passage_report SessionStats.total_wpm WPM.get_wpm
    rw [if_pos h]

/-- Witness for C2's zero-denominator conjunct at the all-zero
accumulator. -/
theorem claim_C2_witness :
    SessionStats.init.total_line_wpm.seconds = 0 ∧
      passage_report SessionStats.init = .zeroDivisionError SessionStats.init :=
  ⟨by decide, (claim_C2 0 []).2 SessionStats.init (by decide)⟩

/-! ## The accumulator domination invariant (C3) -/

/-- `type_char` always records the keystroke instant. -/
theorem type_char_last_key (s : SessionStats) (c : Bool) (ch : Char) (now : ℤ) :
    (s.type_char c ch now).last_key_time = some now := by
  cases hl : s.last_key_time with
  | none => simp [SessionStats.type_char, hl]
  | some t =>
    simp only [SessionStats.type_char, hl]
    split <;> rfl

/-- `end_attempt` always clears the keystroke instant. -/
theorem end_attempt_last_key (s : SessionStats) (b : Bool) :
    (s.end_attempt b).last_key_time = none := rfl

theorem statsInv_type_char (s : SessionStats) (c : Bool) (ch : Char) (now : ℤ)
    (h : StatsInv s) (hmono : ∀ t, s.last_key_time = some t → t ≤ now) :
    StatsInv (s.type_char c ch now) := by
  obtain ⟨h1, h2, h3⟩ := h
  cases hl : s.last_key_time with
  | none =>
    simp only [SessionStats.type_char, hl]
    exact ⟨h1, h2, h3⟩
  | some t =>
    have ht : t ≤ now := hmono t hl
    simp only [SessionStats.type_char, hl]
    by_cases hgt : MAX_KEY_INTERVAL < now - t
    · rw [if_pos hgt]
      exact ⟨h1, h2, h3⟩
    · rw [if_neg hgt]
      refine ⟨?_, ?_, ?_⟩ <;> simp only [WPM.add_char] <;> omega

theorem statsInv_end_attempt (s : SessionStats) (b : Bool) (h : StatsInv s) :
    StatsInv (s.end_attempt b) := by
  obtain ⟨h1, h2, h3⟩ := h
  cases b <;>
    refine ⟨?_, ?_, ?_⟩ <;>
    simp only [SessionStats.end_attempt, Bool.false_eq_true, if_false, if_true,
      WPM.iadd, WPM.init] <;>
    omega

/-- The invariant holds after any monotone-in-time operation sequence. -/
theorem statsInv_applyEvents :
    ∀ (evs : List StatEvent) (s : SessionStats), StatsInv s →
      List.Chain' (· ≤ ·) (eventTimes evs) →
      (∀ t, s.last_key_time = some t →
        ∀ t2, (eventTimes evs).head? = some t2 → t ≤ t2) →
      StatsInv (applyEvents s evs) := by
  intro evs
  induction evs with
  | nil => intro s h _ _; exact h
  | cons e r ih =>
    intro s h hchain hlink
    cases e with
    | ended b =>
      refine ih _ (statsInv_end_attempt s b h) hchain ?_
      intro t ht
      rw [end_attempt_last_key] at ht
      cases ht
    | key c ch t =>
      have hchain2 : List.Chain' (· ≤ ·) (t :: eventTimes r) := hchain
      refine ih _ (statsInv_type_char s c ch t h ?_) (List.chain'_cons'.mp hchain2).2 ?_
      · intro t0 h0
        exact hlink t0 h0 t rfl
      · intro t0 h0 t2 h2
        rw [type_char_last_key] at h0
        obtain rfl : t = t0 := Option.some.inj h0
        exact (List.chain'_cons'.mp hchain2).1 t2 h2

/-- The invariant holds for the accumulator returned by any
`practice_line` run whose keystroke instants are nondecreasing. -/
theorem practice_line_loop_inv (string : List Char) :
    ∀ (input : List Keystroke) (p : ℕ) (f : ℤ) (stats : SessionStats) (out : List String),
      StatsInv stats →
      List.Chain' (· ≤ ·) (input.map Keystroke.time) →
      (∀ t, stats.last_key_time = some t → ∀ k2, input.head? = some k2 → t ≤ k2.time) →
      ∀ b st rest o, practice_line_loop string p f stats out input = .finished b st rest o →
        StatsInv st := by
  intro input
  induction input with
  | nil =>
    intro p f stats out hinv _ _ b st rest o hres
    by_cases h : p < string.length
    · rw [practice_line_loop_blocked _ _ _ _ _ h] at hres
      cases hres
    · rw [practice_line_loop_done _ _ _ _ _ _ h] at hres
      cases hres
      exact statsInv_end_attempt _ _ hinv
  | cons k ks ih =>
    intro p f stats out hinv hchain hlink b st rest o hres
    have hchain2 : List.Chain' (· ≤ ·) (k.time :: ks.map Keystroke.time) := hchain
    have hheadlink : ∀ t, stats.last_key_time = some t → t ≤ k.time := by
      intro t ht
      exact hlink t ht k rfl
    have hkslink : ∀ k2, ks.head? = some k2 → k.time ≤ k2.time := by
      intro k2 hk2
      refine (List.chain'_cons'.mp hchain2).1 k2.time ?_
      rw [List.head?_map, hk2]
      rfl
    by_cases h : p < string.length
    · by_cases hc : k.char = string.get ⟨p, h⟩
      · rw [practice_line_loop_match _ _ _ _ _ _ _ h hc] at hres
        refine ih _ _ _ _ (statsInv_type_char _ _ _ _ hinv hheadlink)
          (List.chain'_cons'.mp hchain2).2 ?_ b st rest o hres
        intro t ht k2 hk2
        rw [type_char_last_key] at ht
        obtain rfl : k.time = t := Option.some.inj ht
        exact hkslink k2 hk2
      · by_cases hx : k.char = '\x03'
        · rw [practice_line_loop_interrupt _ _ _ _ _ _ _ h hc hx] at hres
          cases hres
        · by_cases hp : 0 < p
          · rw [practice_line_loop_mismatch _ _ _ _ _ _ _ h hc hx hp] at hres
            have hinv2 : StatsInv ((stats.type_char false (string.get ⟨p, h⟩)
                k.time).end_attempt false) :=
              statsInv_end_attempt _ _ (statsInv_type_char _ _ _ _ hinv hheadlink)
            by_cases hf1 : f - 1 = 0
            · rw [if_pos hf1] at hres
              cases hres
              exact hinv2
            · rw [if_neg hf1] at hres
              refine ih _ _ _ _ hinv2 (List.chain'_cons'.mp hchain2).2 ?_ b st rest o hres
              intro t ht
              rw [end_attempt_last_key] at ht
              cases ht
          · have hp0 : p = 0 := by omega
            subst hp0
            rw [practice_line_loop_first_miss _ _ _ _ _ _ h hc hx] at hres
            refine ih _ _ _ _ hinv (List.chain'_cons'.mp hchain2).2 ?_ b st rest o hres
            intro t ht k2 hk2
            exact le_trans (hheadlink t ht) (hkslink k2 hk2)
    · rw [practice_line_loop_done _ _ _ _ _ _ h] at hres
      cases hres
      exact statsInv_end_attempt _ _ hinv

/-- C3: the all-attempts tally dominates the correct-attempts tally, in
characters and in elapsed time, (i) after any sequence of keystroke and
end-of-attempt operations with nondecreasing wall-clock instants, and
(iii) in the accumulator returned by any `practice_line` run on
time-monotone input; moreover (ii) the correct tally grows exactly by the
finished attempt's own tally on success, and not at all on failure. -/
theorem claim_C3 :
    (∀ evs : List StatEvent, List.Chain' (· ≤ ·) (eventTimes evs) →
      (applyEvents SessionStats.init evs).correct_line_wpm.chars ≤
        (applyEvents SessionStats.init evs).total_line_wpm.chars ∧
      (applyEvents SessionStats.init evs).correct_line_wpm.seconds ≤
        (applyEvents SessionStats.init evs).total_line_wpm.seconds) ∧
    (∀ s : SessionStats,
      (s.end_attempt true).correct_line_wpm = s.correct_line_wpm.iadd s.attempt_wpm ∧
      (s.end_attempt false).correct_line_wpm = s.correct_line_wpm) ∧
    (∀ (string : List Char) (f : ℤ) (input : List Keystroke),
      List.Chain' (· ≤ ·) (input.map Keystroke.time) →
      ∀ b st rest o, practice_line string f input = .finished b st rest o →
        st.correct_line_wpm.chars ≤ st.total_line_wpm.chars ∧
        st.correct_line_wpm.seconds ≤ st.total_line_wpm.seconds) := by
  refine ⟨?_, ?_, ?_⟩
  · intro evs hchain
    have h := statsInv_applyEvents evs SessionStats.init (by decide) hchain ?_
    · obtain ⟨h1, h2, h3⟩ := h
      constructor <;> omega
    · intro t ht
      cases ht
  · intro s
    exact ⟨rfl, rfl⟩
  · intro string f input hchain b st rest o hres
    have h := practice_line_loop_inv string input 0 f SessionStats.init _ (by decide)
      hchain ?_ b st rest o hres
    · obtain ⟨h1, h2, h3⟩ := h
      constructor <;> omega
    · intro t ht
      cases ht

/-- Witness for C3 at a concrete monotone trace containing a successful
attempt, a 19-second pause and a failed attempt. -/
theorem claim_C3_witness :
    List.Chain' (· ≤ ·) (eventTimes
        [.key true 'a' 0, .key true 'b' 1, .ended true, .key false 'b' 20, .ended false]) ∧
    (applyEvents SessionStats.init
        [.key true 'a' 0, .key true 'b' 1, .ended true, .key false 'b' 20,
          .ended false]).correct_line_wpm.chars ≤
      (applyEvents SessionStats.init
        [.key true 'a' 0, .key true 'b' 1, .ended true, .key false 'b' 20,
          .ended false]).total_line_wpm.chars :=
  ⟨by simp [eventTimes, List.chain'_cons],
    (claim_C3.1
      [.key true 'a' 0, .key true 'b' 1, .ended true, .key false 'b' 20, .ended false]
      (by simp [eventTimes, List.chain'_cons])).1⟩

/-! ## Algebra of the accumulator merge (C8) -/

theorem Accuracy.iadd_assoc (a b c : Accuracy) :
    (a.iadd b).iadd c = a.iadd (b.iadd c) := by
  simp only [Accuracy.iadd, Accuracy.mk.injEq]
  omega

theorem Accuracy.iadd_comm (a b : Accuracy) : a.iadd b = b.iadd a := by
  simp only [Accuracy.iadd, Accuracy.mk.injEq]
  omega

theorem Accuracy.iadd_init (a : Accuracy) : a.iadd Accuracy.init = a := by
  cases a
  simp [Accuracy.iadd, Accuracy.init]

theorem wpm_iadd_assoc (a b c : WPM) : (a.iadd b).iadd c = a.iadd (b.iadd c) := by
  simp only [WPM.iadd, WPM.mk.injEq]
  omega

theorem wpm_iadd_comm (a b : WPM) : a.iadd b = b.iadd a := by
  simp only [WPM.iadd, WPM.mk.injEq]
  omega

/-- Key-containment test used by `init_char_stats`, as key membership. -/
theorem contains_iff (m : CharAccMap) (c : Char) :
    m.any (fun p => p.1 = c) = true ↔ c ∈ m.map Prod.fst := by
  simp [List.any_eq_true]

theorem accAt_not_mem (m : CharAccMap) (c : Char) (h : c ∉ m.map Prod.fst) :
    accAt m c = Accuracy.init := by
  induction m with
  | nil => rfl
  | cons p r ih =>
    simp only [List.map_cons, List.mem_cons, not_or] at h
    rw [accAt, if_neg (fun hc => h.1 hc.symm)]
    exact ih h.2

theorem sumAt_not_mem (m : CharAccMap) (c : Char) (h : c ∉ m.map Prod.fst) :
    sumAt m c = Accuracy.init := by
  induction m with
  | nil => rfl
  | cons p r ih =>
    simp only [List.map_cons, List.mem_cons, not_or] at h
    rw [sumAt, if_neg (fun hc => h.1 hc.symm)]
    exact ih h.2

theorem accAt_append_single (m : CharAccMap) (ch : Char) (a : Accuracy) (c : Char)
    (h : c ≠ ch) : accAt (m ++ [(ch, a)]) c = accAt m c := by
  induction m with
  | nil =>
    simp only [List.nil_append, accAt]
    rw [if_neg (fun hc => h hc.symm)]
  | cons p r ih =>
    by_cases hp : p.1 = c <;> simp [List.cons_append, accAt, hp, ih]

/-- Looking up a key absent from `m` after appending its fresh entry finds
that entry. -/
theorem accAt_append_self (m : CharAccMap) (c : Char) (a : Accuracy)
    (h : c ∉ m.map Prod.fst) : accAt (m ++ [(c, a)]) c = a := by
  induction m with
  | nil =>
    simp [accAt]
  | cons p r ih =>
    simp only [List.map_cons, List.mem_cons, not_or] at h
    simp only [List.cons_append, accAt]
    rw [if_neg (fun hc => h.1 hc.symm)]
    exact ih h.2

/-- Looking up a fresh key lands on the appended zero entry, which equals
the default the lookup would have returned anyway. -/
theorem accAt_init_char_stats (m : CharAccMap) (ch c : Char) :
    accAt (init_char_stats m ch) c = accAt m c := by
  unfold init_char_stats
  by_cases hc : m.any (fun p => p.1 = ch) = true
  · rw [if_pos hc]
  · rw [if_neg hc]
    by_cases hch : c = ch
    · subst hch
      have hmem : c ∉ m.map Prod.fst := fun hm => hc ((contains_iff m c).mpr hm)
      rw [accAt_not_mem m c hmem, accAt_append_self m c Accuracy.init hmem]
    · exact accAt_append_single m ch Accuracy.init c hch

theorem init_char_stats_contains (m : CharAccMap) (ch : Char) :
    (init_char_stats m ch).any (fun p => p.1 = ch) = true := by
  unfold init_char_stats
  by_cases hc : m.any (fun p => p.1 = ch) = true
  · rw [if_pos hc]
    exact hc
  · rw [if_neg hc]
    simp

/-- Updating the entry of key `ch` through the whole-list map touches the
looked-up value exactly when the key is present. -/
theorem accAt_map_upd (m : CharAccMap) (ch : Char) (g : Accuracy → Accuracy) (c : Char) :
    accAt (m.map (fun p => if p.1 = ch then (p.1, g p.2) else p)) c =
      if c = ch ∧ m.any (fun p => p.1 = ch) = true then g (accAt m c) else accAt m c := by
  induction m with
  | nil => simp [accAt]
  | cons p r ih =>
    by_cases hp : p.1 = ch
    · by_cases hpc : p.1 = c
      · have hcch : c = ch := by rw [← hpc, hp]
        simp [accAt, hp, hpc, hcch]
      · have hcch : ¬ c = ch := fun hh => hpc (by rw [hp, ← hh])
        have hchc : ¬ ch = c := fun hh => hcch hh.symm
        simp [accAt, hp, hpc, hcch, hchc, ih]
    · by_cases hpc : p.1 = c
      · have hcch : ¬ c = ch := fun hh => hp (by rw [hpc, hh])
        simp [accAt, hp, hpc, hcch]
      · simp only [List.map_cons, if_neg hp, List.any_cons, decide_eq_false hp,
          Bool.false_or, accAt, if_neg hpc, ih]

/-- The merge-loop body sums entry-wise at every key. -/
theorem accAt_charAcc_add (m : CharAccMap) (ch : Char) (acc : Accuracy) (c : Char) :
    accAt (charAcc_add m ch acc) c =
      if c = ch then (accAt m c).iadd acc else accAt m c := by
  unfold charAcc_add
  have h := accAt_map_upd (init_char_stats m ch) ch (fun a => a.iadd acc) c
  simp only [] at h
  rw [h]
  by_cases hc : c = ch
  · simp [hc, init_char_stats_contains, accAt_init_char_stats]
  · simp [hc, accAt_init_char_stats]

/-- The whole merge loop adds, at every key, the sum of the entries of the
incoming map with that key. -/
theorem accAt_mergeCharAcc (other m : CharAccMap) (c : Char) :
    accAt (mergeCharAcc m other) c = (accAt m c).iadd (sumAt other c) := by
  induction other generalizing m with
  | nil => rw [mergeCharAcc, List.foldl_nil, sumAt, Accuracy.iadd_init]
  | cons p r ih =>
    rw [mergeCharAcc, List.foldl_cons, ← mergeCharAcc, ih, accAt_charAcc_add, sumAt]
    by_cases hp : p.1 = c
    · rw [if_pos hp, if_pos hp.symm, Accuracy.iadd_assoc]
    · rw [if_neg hp, if_neg (fun h => hp h.symm)]

theorem sumAt_eq_accAt (m : CharAccMap) (c : Char) (h : nodupKeys m) :
    sumAt m c = accAt m c := by
  induction m with
  | nil => rfl
  | cons p r ih =>
    unfold nodupKeys at h
    simp only [List.map_cons, List.nodup_cons] at h
    by_cases hp : p.1 = c
    · rw [sumAt, if_pos hp, accAt, if_pos hp, sumAt_not_mem r c (hp ▸ h.1),
        Accuracy.iadd_init]
    · rw [sumAt, if_neg hp, accAt, if_neg hp]
      exact ih h.2

theorem nodupKeys_init_char_stats (m : CharAccMap) (ch : Char) (h : nodupKeys m) :
    nodupKeys (init_char_stats m ch) := by
  unfold init_char_stats
  by_cases hc : m.any (fun p => p.1 = ch) = true
  · rw [if_pos hc]
    exact h
  · rw [if_neg hc]
    unfold nodupKeys at h ⊢
    rw [List.map_append]
    simp only [List.map_cons, List.map_nil]
    rw [List.nodup_append]
    refine ⟨h, List.nodup_singleton ch, ?_⟩
    intro a ha hb
    simp only [List.mem_singleton] at hb
    subst hb
    exact hc ((contains_iff m a).mpr ha)

theorem nodupKeys_charAcc_add (m : CharAccMap) (ch : Char) (acc : Accuracy)
    (h : nodupKeys m) : nodupKeys (charAcc_add m ch acc) := by
  unfold charAcc_add nodupKeys
  have : ((init_char_stats m ch).map
      (fun p => if p.1 = ch then (p.1, p.2.iadd acc) else p)).map Prod.fst =
      (init_char_stats m ch).map Prod.fst := by
    rw [List.map_map]
    refine List.map_congr_left ?_
    intro p _
    by_cases hp : p.1 = ch <;> simp [hp]
  rw [this]
  exact nodupKeys_init_char_stats m ch h

theorem nodupKeys_mergeCharAcc (other m : CharAccMap) (h : nodupKeys m) :
    nodupKeys (mergeCharAcc m other) := by
  induction other generalizing m with
  | nil => exact h
  | cons p r ih =>
    rw [mergeCharAcc, List.foldl_cons, ← mergeCharAcc]
    exact ih _ (nodupKeys_charAcc_add m p.1 p.2 h)

/-- C8: on the resulting counter values, the accumulator merge is
associative and commutative: the two wpm tallies and the overall accuracy
counters are summed field-wise (exactly associative/commutative), and the
per-character accuracy map is summed per key, associatively and
commutatively at every key, for accumulators whose maps are well-formed
dicts (no duplicate keys). -/
theorem claim_C8 (A B C : SessionStats)
    (hA : nodupKeys A.char_accuracies) (hB : nodupKeys B.char_accuracies)
    (hC : nodupKeys C.char_accuracies) :
    ((A.iadd (B.iadd C)).correct_line_wpm = ((A.iadd B).iadd C).correct_line_wpm ∧
     (A.iadd (B.iadd C)).total_line_wpm = ((A.iadd B).iadd C).total_line_wpm ∧
     (A.iadd (B.iadd C)).total_acc = ((A.iadd B).iadd C).total_acc ∧
     ∀ ch, accAt (A.iadd (B.iadd C)).char_accuracies ch =
       accAt ((A.iadd B).iadd C).char_accuracies ch) ∧
    ((A.iadd B).correct_line_wpm = (B.iadd A).correct_line_wpm ∧
     (A.iadd B).total_line_wpm = (B.iadd A).total_line_wpm ∧
     (A.iadd B).total_acc = (B.iadd A).total_acc ∧
     ∀ ch, accAt (A.iadd B).char_accuracies ch = accAt (B.iadd A).char_accuracies ch) := by
  constructor
  · refine ⟨(wpm_iadd_assoc _ _ _).symm, (wpm_iadd_assoc _ _ _).symm,
      (Accuracy.iadd_assoc _ _ _).symm, ?_⟩
    intro ch
    show accAt (mergeCharAcc A.char_accuracies
        (mergeCharAcc B.char_accuracies C.char_accuracies)) ch =
      accAt (mergeCharAcc (mergeCharAcc A.char_accuracies B.char_accuracies)
        C.char_accuracies) ch
    simp only [accAt_mergeCharAcc,
      sumAt_eq_accAt _ _ (nodupKeys_mergeCharAcc C.char_accuracies B.char_accuracies hB),
      sumAt_eq_accAt _ _ hB, sumAt_eq_accAt _ _ hC, Accuracy.iadd_assoc]
  · refine ⟨wpm_iadd_comm _ _, wpm_iadd_comm _ _, Accuracy.iadd_comm _ _, ?_⟩
    intro ch
    show accAt (mergeCharAcc A.char_accuracies B.char_accuracies) ch =
      accAt (mergeCharAcc B.char_accuracies A.char_accuracies) ch
    simp only [accAt_mergeCharAcc, sumAt_eq_accAt _ _ hB, sumAt_eq_accAt _ _ hA]
    exact Accuracy.iadd_comm _ _

/-- Witness for C8 at three concrete accumulators with overlapping
per-character maps. -/
theorem claim_C8_witness :
    (nodupKeys [('a', Accuracy.mk 1 0)] ∧ nodupKeys [('a', Accuracy.mk 0 2)] ∧
      nodupKeys [('b', Accuracy.mk 3 1)]) ∧
    accAt ((SessionStats.mk ⟨1, 2⟩ ⟨3, 4⟩ ⟨0, 0⟩ ⟨5, 6⟩ [('a', Accuracy.mk 1 0)] none).iadd
        ((SessionStats.mk ⟨7, 8⟩ ⟨9, 10⟩ ⟨0, 0⟩ ⟨11, 12⟩ [('a', Accuracy.mk 0 2)] none).iadd
          (SessionStats.mk ⟨13, 14⟩ ⟨15, 16⟩ ⟨0, 0⟩ ⟨17, 18⟩ [('b', Accuracy.mk 3 1)]
            none))).char_accuracies 'a' =
      accAt (((SessionStats.mk ⟨1, 2⟩ ⟨3, 4⟩ ⟨0, 0⟩ ⟨5, 6⟩ [('a', Accuracy.mk 1 0)]
            none).iadd
          (SessionStats.mk ⟨7, 8⟩ ⟨9, 10⟩ ⟨0, 0⟩ ⟨11, 12⟩ [('a', Accuracy.mk 0 2)]
            none)).iadd
        (SessionStats.mk ⟨13, 14⟩ ⟨15, 16⟩ ⟨0, 0⟩ ⟨17, 18⟩ [('b', Accuracy.mk 3 1)]
          none)).char_accuracies 'a' :=
  ⟨⟨by decide, by decide, by decide⟩,
    ((claim_C8
      (SessionStats.mk ⟨1, 2⟩ ⟨3, 4⟩ ⟨0, 0⟩ ⟨5, 6⟩ [('a', Accuracy.mk 1 0)] none)
      (SessionStats.mk ⟨7, 8⟩ ⟨9, 10⟩ ⟨0, 0⟩ ⟨11, 12⟩ [('a', Accuracy.mk 0 2)] none)
      (SessionStats.mk ⟨13, 14⟩ ⟨15, 16⟩ ⟨0, 0⟩ ⟨17, 18⟩ [('b', Accuracy.mk 3 1)] none)
      (by decide) (by decide) (by decide)).1.2.2.2 'a')⟩

/-! ## The passage drill cursor policy (C5) -/

/-- A line drill never invents input: the unread rest is never longer than
the input, and a failed line always consumed at least one keystroke. -/
theorem practice_line_loop_rest_length (string : List Char) :
    ∀ (input : List Keystroke) (p : ℕ) (f : ℤ) (stats : SessionStats) (out : List String)
      (b : Bool) (st : SessionStats) (rest : List Keystroke) (o : List String),
      practice_line_loop string p f stats out input = .finished b st rest o →
      rest.length ≤ input.length ∧ (b = false → rest.length < input.length) := by
  intro input
  induction input with
  | nil =>
    intro p f stats out b st rest o hres
    by_cases h : p < string.length
    · rw [practice_line_loop_blocked _ _ _ _ _ h] at hres
      cases hres
    · rw [practice_line_loop_done _ _ _ _ _ _ h] at hres
      cases hres
      exact ⟨le_rfl, by intro hb; cases hb⟩
  | cons k ks ih =>
    intro p f stats out b st rest o hres
    by_cases h : p < string.length
    · by_cases hc : k.char = string.get ⟨p, h⟩
      · rw [practice_line_loop_match _ _ _ _ _ _ _ h hc] at hres
        obtain ⟨h1, h2⟩ := ih _ _ _ _ _ _ _ _ hres
        refine ⟨?_, fun hb => ?_⟩
        · simp only [List.length_cons]
          omega
        · have := h2 hb
          simp only [List.length_cons]
          omega
      · by_cases hx : k.char = '\x03'
        · rw [practice_line_loop_interrupt _ _ _ _ _ _ _ h hc hx] at hres
          cases hres
        · by_cases hp : 0 < p
          · rw [practice_line_loop_mismatch _ _ _ _ _ _ _ h hc hx hp] at hres
            by_cases hf1 : f - 1 = 0
            · rw [if_pos hf1] at hres
              cases hres
              refine ⟨?_, fun _ => ?_⟩ <;> simp only [List.length_cons] <;> omega
            · rw [if_neg hf1] at hres
              obtain ⟨h1, h2⟩ := ih _ _ _ _ _ _ _ _ hres
              refine ⟨?_, fun hb => ?_⟩
              · simp only [List.length_cons]
                omega
              · have := h2 hb
                simp only [List.length_cons]
                omega
          · have hp0 : p = 0 := by omega
            subst hp0
            rw [practice_line_loop_first_miss _ _ _ _ _ _ h hc hx] at hres
            obtain ⟨h1, h2⟩ := ih _ _ _ _ _ _ _ _ hres
            refine ⟨?_, fun hb => ?_⟩
            · simp only [List.length_cons]
              omega
            · have := h2 hb
              simp only [List.length_cons]
              omega
    · rw [practice_line_loop_done _ _ _ _ _ _ h] at hres
      cases hres
      exact ⟨le_rfl, by intro hb; cases hb⟩

/-- The fuel `practice_passage` supplies is never exhausted: every loop
iteration either consumes input (every failure, and every success on a
nonempty line) or moves the cursor one line closer to the end. -/
theorem practice_passage_loop_fuel (lines : List (List Char)) (fl : ℤ) :
    ∀ (fuel cp : ℕ) (stats : SessionStats) (input : List Keystroke),
      2 * input.length + (lines.length - cp) < fuel →
      practice_passage_loop lines fl fuel cp stats input ≠ .outOfFuel := by
  intro fuel
  induction fuel with
  | zero =>
    intro cp stats input h
    omega
  | succ fuel ih =>
    intro cp stats input h
    rw [practice_passage_loop]
    by_cases hp : cp < lines.length
    · rw [dif_pos hp]
      cases hres : practice_line (lines.get ⟨cp, hp⟩) fl input with
      | exited o => simp
      | blocked o => simp
      | finished success st rest o =>
        unfold practice_line at hres
        obtain ⟨h1, h2⟩ := practice_line_loop_rest_length (lines.get ⟨cp, hp⟩)
          input 0 fl SessionStats.init _ success st rest o hres
        cases success with
        | true =>
          simp only [if_true]
          exact ih (cp + 1) _ rest (by omega)
        | false =>
          have h3 : rest.length < input.length := h2 rfl
          simp only [Bool.false_eq_true, if_false]
          by_cases hcp : 0 < cp
          · rw [if_pos hcp]
            exact ih (cp - 1) _ rest (by omega)
          · rw [if_neg hcp]
            exact ih cp _ rest (by omega)
    · rw [dif_neg hp]
      unfold passage_report
      cases SessionStats.total_wpm stats <;> cases SessionStats.correct_wpm stats <;>
        cases SessionStats.accuracy stats <;> cases dumpCharAcc stats.char_accuracies <;>
        simp

set_option maxHeartbeats 4000000 in
/-- C5: the passage cursor advances by one after a successful line and
retreats by one, floored at zero, after a failed line, with the line
drill's statistics merged into the running accumulator in every case; the
loop emits the report exactly when the cursor reaches the number of lines,
and the fuel the embedding threads through the loop never runs out for the
fuel `practice_passage` supplies; on the concrete two-line scenario (line
one fails once, then succeeds; line two succeeds first try) the cursor
takes the values 0, 0, 1, 2. -/
theorem claim_C5 :
    (∀ (lines : List (List Char)) (fl : ℤ) (fuel cp : ℕ) (stats : SessionStats)
        (input : List Keystroke) (hp : cp < lines.length) (success : Bool)
        (st : SessionStats) (rest : List Keystroke) (o : List String),
        practice_line (lines.get ⟨cp, hp⟩) fl input = .finished success st rest o →
        practice_passage_loop lines fl (fuel + 1) cp stats input =
          if success then
            practice_passage_loop lines fl fuel (cp + 1) (stats.iadd st) rest
          else if 0 < cp then
            practice_passage_loop lines fl fuel (cp - 1) (stats.iadd st) rest
          else
            practice_passage_loop lines fl fuel cp (stats.iadd st) rest) ∧
    (∀ (lines : List (List Char)) (fl : ℤ) (fuel cp : ℕ) (stats : SessionStats)
        (input : List Keystroke), ¬ cp < lines.length →
        practice_passage_loop lines fl (fuel + 1) cp stats input = passage_report stats) ∧
    (∀ (lines : List (List Char)) (fl : ℤ) (fuel cp : ℕ) (stats : SessionStats)
        (input : List Keystroke),
        2 * input.length + (lines.length - cp) < fuel →
        practice_passage_loop lines fl fuel cp stats input ≠ .outOfFuel) ∧
    (practice_passage sample_lines 1 sample_input =
      practice_passage_loop sample_lines 1 12 0
        ⟨⟨0, 0⟩, ⟨1, 1⟩, ⟨0, 0⟩, ⟨1, 1⟩, [('a', ⟨1, 0⟩), ('b', ⟨0, 1⟩)], none⟩
        [⟨'a', 2⟩, ⟨'b', 3⟩, ⟨'c', 4⟩]) ∧
    (practice_passage_loop sample_lines 1 12 0
        ⟨⟨0, 0⟩, ⟨1, 1⟩, ⟨0, 0⟩, ⟨1, 1⟩, [('a', ⟨1, 0⟩), ('b', ⟨0, 1⟩)], none⟩
        [⟨'a', 2⟩, ⟨'b', 3⟩, ⟨'c', 4⟩] =
      practice_passage_loop sample_lines 1 11 1
        ⟨⟨1, 1⟩, ⟨2, 2⟩, ⟨0, 0⟩, ⟨3, 1⟩, [('a', ⟨2, 0⟩), ('b', ⟨1, 1⟩)], none⟩
        [⟨'c', 4⟩]) ∧
    (practice_passage_loop sample_lines 1 11 1
        ⟨⟨1, 1⟩, ⟨2, 2⟩, ⟨0, 0⟩, ⟨3, 1⟩, [('a', ⟨2, 0⟩), ('b', ⟨1, 1⟩)], none⟩
        [⟨'c', 4⟩] =
      practice_passage_loop sample_lines 1 10 2
        ⟨⟨1, 1⟩, ⟨2, 2⟩, ⟨0, 0⟩, ⟨4, 1⟩,
          [('a', ⟨2, 0⟩), ('b', ⟨1, 1⟩), ('c', ⟨1, 0⟩)], none⟩ []) ∧
    (practice_passage_loop sample_lines 1 10 2
        ⟨⟨1, 1⟩, ⟨2, 2⟩, ⟨0, 0⟩, ⟨4, 1⟩,
          [('a', ⟨2, 0⟩), ('b', ⟨1, 1⟩), ('c', ⟨1, 0⟩)], none⟩ [] =
      passage_report
        ⟨⟨1, 1⟩, ⟨2, 2⟩, ⟨0, 0⟩, ⟨4, 1⟩,
          [('a', ⟨2, 0⟩), ('b', ⟨1, 1⟩), ('c', ⟨1, 0⟩)], none⟩) := by
  refine ⟨?_, ?_, ?_, ?_, ?_, ?_, ?_⟩
  · intro lines fl fuel cp stats input hp success st rest o hres
    rw [practice_passage_loop, dif_pos hp]
    simp only [List.get_eq_getElem] at hres
    simp [hres]
  · intro lines fl fuel cp stats input h
    rw [practice_passage_loop, dif_neg h]
  · exact fun lines fl => practice_passage_loop_fuel lines fl
  · rfl
  · rfl
  · rfl
  · rfl

/-- Witness for C5's step equation at the scenario's first line attempt:
the line fails, the cursor stays at zero, and the line statistics are
merged in. -/
theorem claim_C5_witness :
    practice_line (sample_lines.get ⟨0, by decide⟩) 1 sample_input =
      .finished false
        ⟨⟨0, 0⟩, ⟨1, 1⟩, ⟨0, 0⟩, ⟨1, 1⟩, [('a', ⟨1, 0⟩), ('b', ⟨0, 1⟩)], none⟩
        [⟨'a', 2⟩, ⟨'b', 3⟩, ⟨'c', 4⟩]
        [fg CYAN ++ bold ++ String.mk ['a', 'b'] ++ reset ++ "\n", "a",
          bell ++ fg RED ++ bold ++ "x" ++ reset ++ "\n"] ∧
    practice_passage_loop sample_lines 1 13 0 SessionStats.init sample_input =
      practice_passage_loop sample_lines 1 12 0
        (SessionStats.init.iadd
          ⟨⟨0, 0⟩, ⟨1, 1⟩, ⟨0, 0⟩, ⟨1, 1⟩, [('a', ⟨1, 0⟩), ('b', ⟨0, 1⟩)], none⟩)
        [⟨'a', 2⟩, ⟨'b', 3⟩, ⟨'c', 4⟩] :=
  ⟨by decide,
    claim_C5.1 sample_lines 1 12 0 SessionStats.init sample_input (by decide) false
      ⟨⟨0, 0⟩, ⟨1, 1⟩, ⟨0, 0⟩, ⟨1, 1⟩, [('a', ⟨1, 0⟩), ('b', ⟨0, 1⟩)], none⟩
      [⟨'a', 2⟩, ⟨'b', 3⟩, ⟨'c', 4⟩]
      [fg CYAN ++ bold ++ String.mk ['a', 'b'] ++ reset ++ "\n", "a",
        bell ++ fg RED ++ bold ++ "x" ++ reset ++ "\n"] (by decide)⟩

end Typing
